import Mathlib

/-!
Verification of the RPD extraction-and-validation pipeline of this
repository (`app/rpd/extractor.py` and `app/rpd/processor.py`).

Shallow-embedding conventions:
* Python `float` is modelled as `ℚ` (all constants appearing in the code,
  such as 0.1, 2.0 and the completeness weights, are exact decimals, and
  every property checked here is insensitive to the rational/binary-float
  distinction).
* Python `int` is modelled as `ℤ`, Python `str` as `String`.
* Python `None` / optional values are modelled with `Option`.
* A function that may raise is modelled with `Except String`.
-/

/-! ### Python string helpers

`pyStripChars` models Python's `str.strip()`: whitespace is removed from
both ends.  The Python whitespace set relevant to this code is
space, tab, newline, carriage return, vertical tab and form feed. -/

def isPyWs (c : Char) : Bool :=
  c = ' ' || c = '\t' || c = '\n' || c = '\r' || c = '\x0b' || c = '\x0c'

def pyStripChars (cs : List Char) : List Char :=
  ((cs.dropWhile isPyWs).reverse.dropWhile isPyWs).reverse

def pyStrip (s : String) : String :=
  String.mk (pyStripChars s.data)

/-! ### Data model (`extractor.py`, dataclasses `LectureTheme`,
`LabExample`, `LiteratureReference`, `RPDData`) -/

structure LectureTheme where
  title : String
  order : Int
  hours : ℚ
  description : Option String := none
  deriving DecidableEq

structure LabExample where
  title : String
  description : String
  theme_relation : Option String := none
  estimated_hours : Option ℚ := none
  deriving DecidableEq

structure LiteratureReference where
  authors : String
  title : String
  year : Option Int := none
  pages : Option String := none
  publisher : Option String := none
  isbn : Option String := none
  kpfu_available : Bool := false
  kpfu_book_id : Option String := none
  deriving DecidableEq

structure RPDData where
  subject_title : String
  academic_degree : String
  profession : String
  total_hours : Int
  department : Option String := none
  faculty : Option String := none
  year : Option Int := none
  semester : Option String := none
  lecture_themes : List LectureTheme := []
  lab_examples : List LabExample := []
  literature_references : List LiteratureReference := []
  extraction_confidence : Option ℚ := none
  extraction_errors : List String := []
  deriving DecidableEq

/-! ### Validator (`RPDDataExtractor._validate_rpd_data`, lines 526-562) -/

def valid_degrees : List String := ["bachelor", "master", "phd"]

/-- Decimal digit character (used for the `f"{i+1}"` interpolation in the
validator's warning messages and for JSON number encoding). -/
def digitCh : Nat → Char
  | 0 => '0' | 1 => '1' | 2 => '2' | 3 => '3' | 4 => '4'
  | 5 => '5' | 6 => '6' | 7 => '7' | 8 => '8' | _ => '9'

/-- Decimal representation of a natural number, as Python `str(n)`. -/
def natToChars (n : Nat) : List Char :=
  if _h : n < 10 then [digitCh n]
  else natToChars (n / 10) ++ [digitCh (n % 10)]
  decreasing_by exact Nat.div_lt_self (by omega) (by omega)

def natStr (n : Nat) : String := String.mk (natToChars n)

/-- The validator's warning `f"Lecture theme {n} has empty title"`. -/
def emptyTitleMsg (n : Nat) : String :=
  "Lecture theme " ++ natStr n ++ " has empty title"

/-- The validator's warning `f"Lecture theme {n} hours corrected to 2.0"`. -/
def hoursMsg (n : Nat) : String :=
  "Lecture theme " ++ natStr n ++ " hours corrected to 2.0"

/-- The validator's warning for an out-of-enumeration academic degree. -/
def degreeMsg : String := "Invalid academic degree, defaulted to 'bachelor'"

/-- The body of the `for i, theme in enumerate(...)` loop of
`_validate_rpd_data` for one theme at index `i`: an empty (stripped) title
produces a warning; non-positive hours are corrected to 2.0 with a
warning. -/
def validateTheme (i : Nat) (t : LectureTheme) : LectureTheme × List String :=
  let titleErrs :=
    if pyStrip t.title = "" then [emptyTitleMsg (i + 1)] else []
  if t.hours ≤ 0 then
    ({ t with hours := 2 }, titleErrs ++ [hoursMsg (i + 1)])
  else (t, titleErrs)

/-- The theme loop of `_validate_rpd_data` starting at index `i`: returns
the corrected themes and the warnings, in source order. -/
def validateThemesFrom (i : Nat) : List LectureTheme → List LectureTheme × List String
  | [] => ([], [])
  | t :: ts =>
    let p := validateTheme i t
    let q := validateThemesFrom (i + 1) ts
    (p.1 :: q.1, p.2 ++ q.2)

/-- The local `errors` list accumulated by one `_validate_rpd_data` pass,
in the order the source appends them: subject title, profession, total
hours, academic degree, then the per-theme warnings. -/
def validationErrors (rpd : RPDData) : List String :=
  (if pyStrip rpd.subject_title = "" then ["Subject title is required"] else []) ++
  (if pyStrip rpd.profession = "" then ["Profession/direction is required"] else []) ++
  (if rpd.total_hours ≤ 0 then ["Total hours must be positive"] else []) ++
  (if rpd.academic_degree ∈ valid_degrees then [] else [degreeMsg]) ++
  (validateThemesFrom 0 rpd.lecture_themes).2

/-- `RPDDataExtractor._validate_rpd_data`: coerces an invalid degree to
"bachelor", corrects non-positive theme hours to 2.0, computes
`confidence = 1.0` if no warning was produced by this pass and
`max(0.1, 1.0 - len(errors)*0.1)` otherwise, and extends
`extraction_errors` with this pass's warnings. -/
def _validate_rpd_data (rpd : RPDData) : RPDData :=
  let errors := validationErrors rpd
  let confidence : ℚ :=
    if errors = [] then 1 else max (1/10) (1 - (errors.length : ℚ) * (1/10))
  { rpd with
      academic_degree :=
        if rpd.academic_degree ∈ valid_degrees then rpd.academic_degree else "bachelor"
      lecture_themes := (validateThemesFrom 0 rpd.lecture_themes).1
      extraction_confidence := some confidence
      extraction_errors := rpd.extraction_errors ++ errors }

/-! ### Arithmetic and character helper lemmas -/

def isDigitCh (c : Char) : Bool := 48 ≤ c.toNat && c.toNat ≤ 57

def charsToNat (cs : List Char) : Nat :=
  cs.foldl (fun a c => 10 * a + (c.toNat - 48)) 0

theorem digitCh_isDigit (d : Nat) : isDigitCh (digitCh d) = true := by
  unfold digitCh
  split <;> decide

theorem natToChars_digits (n : Nat) : ∀ c ∈ natToChars n, isDigitCh c = true := by
  induction n using Nat.strong_induction_on with
  | _ n ih =>
    unfold natToChars
    split
    · intro c hc
      simp at hc
      subst hc
      exact digitCh_isDigit n
    · intro c hc
      rw [List.mem_append] at hc
      rcases hc with hc | hc
      · exact ih (n / 10) (Nat.div_lt_self (by omega) (by omega)) c hc
      · simp at hc
        subst hc
        exact digitCh_isDigit (n % 10)

theorem takeWhile_append_all {p : Char → Bool} {xs ys : List Char}
    (hxs : ∀ c ∈ xs, p c = true) (hys : ys.head?.all (fun c => !p c) = true) :
    List.takeWhile p (xs ++ ys) = xs := by
  induction xs with
  | nil =>
    cases ys with
    | nil => rfl
    | cons y ys =>
      simp at hys
      simp [List.takeWhile_cons, hys]
  | cons x xs ih =>
    have hx := hxs x (by simp)
    simp [List.takeWhile_cons, hx]
    exact ih (fun c hc => hxs c (by simp [hc]))

theorem charsToNat_natToChars (n : Nat) : charsToNat (natToChars n) = n := by
  induction n using Nat.strong_induction_on with
  | _ n ih =>
    unfold natToChars
    split
    · rename_i h
      unfold charsToNat
      interval_cases n <;> decide
    · rename_i h
      unfold charsToNat
      rw [List.foldl_append]
      have := ih (n / 10) (Nat.div_lt_self (by omega) (by omega))
      unfold charsToNat at this
      rw [this]
      simp only [List.foldl_cons, List.foldl_nil]
      have hd : (digitCh (n % 10)).toNat - 48 = n % 10 := by
        have : n % 10 < 10 := Nat.mod_lt _ (by omega)
        interval_cases h : (n % 10) <;> decide
      omega

theorem natToChars_inj {a b : Nat} (h : natToChars a = natToChars b) : a = b := by
  have := congrArg charsToNat h
  rwa [charsToNat_natToChars, charsToNat_natToChars] at this

/-- The two indexed theme warnings never coincide, whatever the indices. -/
theorem hoursMsg_ne_emptyTitleMsg (i j : Nat) : hoursMsg i ≠ emptyTitleMsg j := by
  intro h
  rw [String.ext_iff] at h
  unfold hoursMsg emptyTitleMsg natStr at h
  simp only [String.data_append, List.append_assoc] at h
  have h2 := List.append_cancel_left h
  have hdig : natToChars i = natToChars j := by
    have hl := @takeWhile_append_all isDigitCh (natToChars i)
      (" hours corrected to 2.0" : String).data (natToChars_digits i) (by decide)
    have hr := @takeWhile_append_all isDigitCh (natToChars j)
      (" has empty title" : String).data (natToChars_digits j) (by decide)
    have := congrArg (List.takeWhile isDigitCh) h2
    rwa [hl, hr] at this
  rw [hdig] at h2
  have h3 := List.append_cancel_left h2
  exact absurd h3 (by decide)

theorem subjectMsg_ne_hoursMsg (n : Nat) : "Subject title is required" ≠ hoursMsg n := by
  intro h
  rw [String.ext_iff] at h
  unfold hoursMsg at h
  simp only [String.data_append] at h
  have := congrArg List.head? h
  simp at this

theorem professionMsg_ne_hoursMsg (n : Nat) :
    "Profession/direction is required" ≠ hoursMsg n := by
  intro h
  rw [String.ext_iff] at h
  unfold hoursMsg at h
  simp only [String.data_append] at h
  have := congrArg List.head? h
  simp at this

theorem totalHoursMsg_ne_hoursMsg (n : Nat) : "Total hours must be positive" ≠ hoursMsg n := by
  intro h
  rw [String.ext_iff] at h
  unfold hoursMsg at h
  simp only [String.data_append] at h
  have := congrArg List.head? h
  simp at this

theorem degreeMsg_ne_hoursMsg (n : Nat) : degreeMsg ≠ hoursMsg n := by
  intro h
  rw [String.ext_iff] at h
  unfold degreeMsg hoursMsg at h
  simp only [String.data_append] at h
  have := congrArg List.head? h
  simp at this

/-! ### Structural facts about one validation pass -/

/-- The per-theme correction applied by the validator. -/
def fixTheme (t : LectureTheme) : LectureTheme :=
  if t.hours ≤ 0 then { t with hours := 2 } else t

theorem validateTheme_fst (i : Nat) (t : LectureTheme) :
    (validateTheme i t).1 = fixTheme t := by
  unfold validateTheme fixTheme
  by_cases h : t.hours ≤ 0 <;> simp [h]

theorem validateThemesFrom_fst (i : Nat) (ts : List LectureTheme) :
    (validateThemesFrom i ts).1 = ts.map fixTheme := by
  induction ts generalizing i with
  | nil => rfl
  | cons t ts ih =>
    simp only [validateThemesFrom, List.map_cons]
    rw [validateTheme_fst, ih]

theorem fixTheme_hours_pos (t : LectureTheme) : 0 < (fixTheme t).hours := by
  unfold fixTheme
  split
  · norm_num
  · rename_i h
    exact lt_of_not_le h

theorem fixTheme_of_pos {t : LectureTheme} (h : 0 < t.hours) : fixTheme t = t := by
  unfold fixTheme
  rw [if_neg (not_le.mpr h)]

/-- Every warning produced by the theme loop is one of the two indexed
messages, and the hours message only appears for a theme whose hours were
non-positive. -/
theorem validateThemesFrom_snd_mem (i : Nat) (ts : List LectureTheme) (s : String)
    (hs : s ∈ (validateThemesFrom i ts).2) :
    ∃ j, ∃ _ : j < ts.length,
      s = emptyTitleMsg (i + j + 1) ∨
      (s = hoursMsg (i + j + 1) ∧ (ts.get ⟨j, by assumption⟩).hours ≤ 0) := by
  induction ts generalizing i with
  | nil => simp [validateThemesFrom] at hs
  | cons t ts ih =>
    simp only [validateThemesFrom, List.mem_append] at hs
    rcases hs with hs | hs
    · unfold validateTheme at hs
      refine ⟨0, by simp, ?_⟩
      by_cases hh : t.hours ≤ 0
      · rw [if_pos hh] at hs
        simp only [List.mem_append] at hs
        rcases hs with hs | hs
        · split at hs
          · simp at hs
            exact Or.inl (by simpa using hs)
          · simp at hs
        · simp at hs
          exact Or.inr ⟨by simpa using hs, by simpa using hh⟩
      · rw [if_neg hh] at hs
        split at hs
        · simp at hs
          exact Or.inl (by simpa using hs)
        · simp at hs
    · obtain ⟨j, hj, hcase⟩ := ih (i + 1) hs
      refine ⟨j + 1, by simpa using Nat.succ_lt_succ hj, ?_⟩
      have harith : i + 1 + j + 1 = i + (j + 1) + 1 := by omega
      rw [harith] at hcase
      simpa using hcase

theorem degreeMsg_ne_emptyTitleMsg (n : Nat) : degreeMsg ≠ emptyTitleMsg n := by
  intro h
  rw [String.ext_iff] at h
  unfold degreeMsg emptyTitleMsg at h
  simp only [String.data_append] at h
  have := congrArg List.head? h
  simp at this

theorem fixTheme_title (t : LectureTheme) : (fixTheme t).title = t.title := by
  unfold fixTheme
  split <;> rfl

theorem fixTheme_order (t : LectureTheme) : (fixTheme t).order = t.order := by
  unfold fixTheme
  split <;> rfl

theorem fixTheme_description (t : LectureTheme) : (fixTheme t).description = t.description := by
  unfold fixTheme
  split <;> rfl

theorem fixTheme_hours (t : LectureTheme) :
    (fixTheme t).hours = if t.hours ≤ 0 then (2 : ℚ) else t.hours := by
  unfold fixTheme
  split <;> rfl

theorem validate_errors_eq (rpd : RPDData) :
    (_validate_rpd_data rpd).extraction_errors =
      rpd.extraction_errors ++ validationErrors rpd := rfl

theorem validate_degree_eq (rpd : RPDData) :
    (_validate_rpd_data rpd).academic_degree =
      if rpd.academic_degree ∈ valid_degrees then rpd.academic_degree else "bachelor" := rfl

theorem validate_themes_eq (rpd : RPDData) :
    (_validate_rpd_data rpd).lecture_themes = rpd.lecture_themes.map fixTheme := by
  have h : (_validate_rpd_data rpd).lecture_themes =
      (validateThemesFrom 0 rpd.lecture_themes).1 := rfl
  rw [h, validateThemesFrom_fst]

theorem validate_confidence_eq (rpd : RPDData) :
    (_validate_rpd_data rpd).extraction_confidence =
      some (max (1/10) (1 - ((validationErrors rpd).length : ℚ) * (1/10))) := by
  have h : (_validate_rpd_data rpd).extraction_confidence =
      some (if validationErrors rpd = [] then (1 : ℚ)
            else max (1/10) (1 - ((validationErrors rpd).length : ℚ) * (1/10))) := rfl
  rw [h]
  split
  · rename_i hnil
    rw [hnil]
    norm_num
  · rfl

theorem validate_hours_pos (rpd : RPDData) :
    ∀ t ∈ (_validate_rpd_data rpd).lecture_themes, 0 < t.hours := by
  rw [validate_themes_eq]
  intro t ht
  rw [List.mem_map] at ht
  obtain ⟨u, _, rfl⟩ := ht
  exact fixTheme_hours_pos u

/-- Case analysis for membership in one validation pass's warning list. -/
theorem mem_validationErrors_cases (rpd : RPDData) (s : String)
    (hs : s ∈ validationErrors rpd) :
    s = "Subject title is required" ∨
    s = "Profession/direction is required" ∨
    s = "Total hours must be positive" ∨
    (s = degreeMsg ∧ rpd.academic_degree ∉ valid_degrees) ∨
    s ∈ (validateThemesFrom 0 rpd.lecture_themes).2 := by
  unfold validationErrors at hs
  simp only [List.mem_append] at hs
  rcases hs with ((((hs | hs) | hs) | hs) | hs)
  · split at hs
    · simp at hs
      exact Or.inl hs
    · simp at hs
  · split at hs
    · simp at hs
      exact Or.inr (Or.inl hs)
    · simp at hs
  · split at hs
    · simp at hs
      exact Or.inr (Or.inr (Or.inl hs))
    · simp at hs
  · split at hs
    · simp at hs
    · rename_i hdeg
      simp at hs
      exact Or.inr (Or.inr (Or.inr (Or.inl ⟨hs, hdeg⟩)))
  · exact Or.inr (Or.inr (Or.inr (Or.inr hs)))

/-- C3: after `_validate_rpd_data` runs on any record, `academic_degree`
is a member of {bachelor, master, phd}; any raw value outside that set is
coerced to "bachelor" and the degree warning is recorded in
`extraction_errors`. -/
theorem C3_degree_enum_after_validation (rpd : RPDData) :
    (_validate_rpd_data rpd).academic_degree ∈ valid_degrees ∧
    (rpd.academic_degree ∉ valid_degrees →
      (_validate_rpd_data rpd).academic_degree = "bachelor" ∧
      degreeMsg ∈ (_validate_rpd_data rpd).extraction_errors) := by
  constructor
  · rw [validate_degree_eq]
    split
    · assumption
    · decide
  · intro hm
    refine ⟨by rw [validate_degree_eq, if_neg hm], ?_⟩
    rw [validate_errors_eq, List.mem_append]
    right
    unfold validationErrors
    simp [List.mem_append, hm]

def exInvalidDegree : RPDData :=
  { subject_title := "Algorithms", academic_degree := "doctor",
    profession := "Computer Science", total_hours := 144 }

theorem C3_degree_enum_after_validation_witness :
    (_validate_rpd_data exInvalidDegree).academic_degree = "bachelor" ∧
    degreeMsg ∈ (_validate_rpd_data exInvalidDegree).extraction_errors :=
  (C3_degree_enum_after_validation exInvalidDegree).2 (by decide)

/-- C4: one validation pass sets `extraction_confidence` to
`max(0.1, 1.0 - 0.1 * n)` where `n` is the number of warnings produced by
that pass alone; the warnings are appended to the already-accumulated
`extraction_errors`, and errors accumulated before validation have no
effect on the confidence value. -/
theorem C4_confidence_counts_pass_warnings (rpd : RPDData) :
    (_validate_rpd_data rpd).extraction_confidence =
      some (max (1/10) (1 - ((validationErrors rpd).length : ℚ) * (1/10))) ∧
    (_validate_rpd_data rpd).extraction_errors =
      rpd.extraction_errors ++ validationErrors rpd ∧
    ∀ prior : List String,
      (_validate_rpd_data { rpd with extraction_errors := prior }).extraction_confidence =
        (_validate_rpd_data rpd).extraction_confidence := by
  refine ⟨validate_confidence_eq rpd, validate_errors_eq rpd, ?_⟩
  intro prior
  rw [validate_confidence_eq, validate_confidence_eq]
  rfl

def exPriorErrors : RPDData :=
  { subject_title := "", academic_degree := "bachelor", profession := "Physics",
    total_hours := 0, extraction_errors := ["LabExample construction failed"] }

theorem C4_confidence_counts_pass_warnings_witness :
    (_validate_rpd_data exPriorErrors).extraction_confidence =
      some (max (1/10) (1 - ((validationErrors exPriorErrors).length : ℚ) * (1/10))) ∧
    (_validate_rpd_data exPriorErrors).extraction_errors =
      exPriorErrors.extraction_errors ++ validationErrors exPriorErrors ∧
    (_validate_rpd_data { exPriorErrors with extraction_errors := [] }).extraction_confidence =
      (_validate_rpd_data exPriorErrors).extraction_confidence :=
  ⟨(C4_confidence_counts_pass_warnings exPriorErrors).1,
   (C4_confidence_counts_pass_warnings exPriorErrors).2.1,
   (C4_confidence_counts_pass_warnings exPriorErrors).2.2 []⟩

/-- C9: the validator touches only `academic_degree` (and only when it is
outside the valid enumeration), theme hours (and only when non-positive),
`extraction_confidence`, and `extraction_errors` (by appending); every
other field — including theme titles, orders and descriptions — is
unchanged. -/
theorem C9_validator_frame (rpd : RPDData) :
    (_validate_rpd_data rpd).subject_title = rpd.subject_title ∧
    (_validate_rpd_data rpd).profession = rpd.profession ∧
    (_validate_rpd_data rpd).total_hours = rpd.total_hours ∧
    (_validate_rpd_data rpd).department = rpd.department ∧
    (_validate_rpd_data rpd).faculty = rpd.faculty ∧
    (_validate_rpd_data rpd).year = rpd.year ∧
    (_validate_rpd_data rpd).semester = rpd.semester ∧
    (_validate_rpd_data rpd).lab_examples = rpd.lab_examples ∧
    (_validate_rpd_data rpd).literature_references = rpd.literature_references ∧
    (rpd.academic_degree ∈ valid_degrees →
      (_validate_rpd_data rpd).academic_degree = rpd.academic_degree) ∧
    (_validate_rpd_data rpd).lecture_themes.map LectureTheme.title =
      rpd.lecture_themes.map LectureTheme.title ∧
    (_validate_rpd_data rpd).lecture_themes.map LectureTheme.order =
      rpd.lecture_themes.map LectureTheme.order ∧
    (_validate_rpd_data rpd).lecture_themes.map LectureTheme.description =
      rpd.lecture_themes.map LectureTheme.description ∧
    (_validate_rpd_data rpd).lecture_themes.map LectureTheme.hours =
      rpd.lecture_themes.map (fun t => if t.hours ≤ 0 then (2 : ℚ) else t.hours) ∧
    (_validate_rpd_data rpd).extraction_errors =
      rpd.extraction_errors ++ validationErrors rpd := by
  refine ⟨rfl, rfl, rfl, rfl, rfl, rfl, rfl, rfl, rfl, ?_, ?_, ?_, ?_, ?_,
    validate_errors_eq rpd⟩
  · intro h
    rw [validate_degree_eq, if_pos h]
  · rw [validate_themes_eq, List.map_map]
    exact List.map_congr_left (fun t _ => fixTheme_title t)
  · rw [validate_themes_eq, List.map_map]
    exact List.map_congr_left (fun t _ => fixTheme_order t)
  · rw [validate_themes_eq, List.map_map]
    exact List.map_congr_left (fun t _ => fixTheme_description t)
  · rw [validate_themes_eq, List.map_map]
    exact List.map_congr_left (fun t _ => fixTheme_hours t)

def exFrame : RPDData :=
  { subject_title := "Databases", academic_degree := "master",
    profession := "Applied Informatics", total_hours := 108,
    department := some "ITIS", year := some 2024,
    lecture_themes :=
      [{ title := "SQL", order := 1, hours := 0 },
       { title := "Indexes", order := 2, hours := 4 }],
    lab_examples := [{ title := "Lab 1", description := "Joins" }],
    literature_references := [{ authors := "Date C.", title := "Databases" }] }

theorem C9_validator_frame_witness :
    (_validate_rpd_data exFrame).academic_degree = exFrame.academic_degree ∧
    (_validate_rpd_data exFrame).subject_title = exFrame.subject_title ∧
    (_validate_rpd_data exFrame).lab_examples = exFrame.lab_examples ∧
    (_validate_rpd_data exFrame).lecture_themes.map LectureTheme.title =
      exFrame.lecture_themes.map LectureTheme.title ∧
    (_validate_rpd_data exFrame).lecture_themes.map LectureTheme.hours =
      exFrame.lecture_themes.map (fun t => if t.hours ≤ 0 then (2 : ℚ) else t.hours) := by
  obtain ⟨h1, h2, h3, h4, h5, h6, h7, h8, h9, h10, h11, h12, h13, h14, h15⟩ :=
    C9_validator_frame exFrame
  exact ⟨h10 (by decide), h1, h8, h11, h14⟩

/-- C5: re-running the validator on an already-validated record keeps
`academic_degree` and all (already corrected) lecture themes unchanged,
and the second pass emits neither the degree-coercion warning nor any
hours-correction warning, so those warnings are not duplicated. -/
theorem C5_validator_idempotent (rpd : RPDData) :
    (_validate_rpd_data (_validate_rpd_data rpd)).academic_degree =
      (_validate_rpd_data rpd).academic_degree ∧
    (_validate_rpd_data (_validate_rpd_data rpd)).lecture_themes =
      (_validate_rpd_data rpd).lecture_themes ∧
    degreeMsg ∉ validationErrors (_validate_rpd_data rpd) ∧
    (∀ n : Nat, hoursMsg n ∉ validationErrors (_validate_rpd_data rpd)) := by
  have hdeg : (_validate_rpd_data rpd).academic_degree ∈ valid_degrees :=
    (C3_degree_enum_after_validation rpd).1
  have hpos := validate_hours_pos rpd
  refine ⟨?_, ?_, ?_, ?_⟩
  · rw [validate_degree_eq (_validate_rpd_data rpd), if_pos hdeg]
  · rw [validate_themes_eq (_validate_rpd_data rpd)]
    have : ∀ t ∈ (_validate_rpd_data rpd).lecture_themes, fixTheme t = t :=
      fun t ht => fixTheme_of_pos (hpos t ht)
    rw [List.map_congr_left this]
    simp
  · intro hmem
    rcases mem_validationErrors_cases _ _ hmem with h | h | h | ⟨_, hdeg2⟩ | h
    · exact absurd h.symm (by decide)
    · exact absurd h.symm (by decide)
    · exact absurd h.symm (by decide)
    · exact hdeg2 hdeg
    · obtain ⟨j, hj, hcase⟩ := validateThemesFrom_snd_mem 0 _ _ h
      rcases hcase with hcase | ⟨_, hle⟩
      · exact absurd hcase (degreeMsg_ne_emptyTitleMsg _)
      · exact absurd hle (not_le.mpr (hpos _ (List.get_mem _ _ _)))
  · intro n hmem
    rcases mem_validationErrors_cases _ _ hmem with h | h | h | ⟨hd, _⟩ | h
    · exact absurd h (subjectMsg_ne_hoursMsg n).symm
    · exact absurd h (professionMsg_ne_hoursMsg n).symm
    · exact absurd h (totalHoursMsg_ne_hoursMsg n).symm
    · exact absurd hd.symm (degreeMsg_ne_hoursMsg n)
    · obtain ⟨j, hj, hcase⟩ := validateThemesFrom_snd_mem 0 _ _ h
      rcases hcase with hcase | ⟨_, hle⟩
      · exact absurd hcase (fun he => hoursMsg_ne_emptyTitleMsg n _ he)
      · exact absurd hle (not_le.mpr (hpos _ (List.get_mem _ _ _)))

def exIdem : RPDData :=
  { subject_title := "Networks", academic_degree := "specialist",
    profession := "", total_hours := 72,
    lecture_themes := [{ title := "OSI model", order := 1, hours := -1 }] }

theorem C5_validator_idempotent_witness :
    (_validate_rpd_data (_validate_rpd_data exIdem)).academic_degree =
      (_validate_rpd_data exIdem).academic_degree ∧
    (_validate_rpd_data (_validate_rpd_data exIdem)).lecture_themes =
      (_validate_rpd_data exIdem).lecture_themes ∧
    degreeMsg ∉ validationErrors (_validate_rpd_data exIdem) ∧
    hoursMsg 1 ∉ validationErrors (_validate_rpd_data exIdem) := by
  obtain ⟨h1, h2, h3, h4⟩ := C5_validator_idempotent exIdem
  exact ⟨h1, h2, h3, h4 1⟩

/-! ### Field extractor orchestrator (`RPDDataExtractor.extract_rpd_data`,
lines 170-234)

The four `_extract_*` helpers (lines 236-345) consult the completion
service or the regex fallbacks and catch their own exceptions, so from
the orchestrator's point of view each is a total call returning an
optional decoded group; an `ExtractEnv` records those four outcomes.
A decoded item dict is modelled by a record of optional fields (`none` =
key absent): the constructions `LectureTheme(**theme)` etc. raise
`TypeError` exactly when a required key is missing (the exact Python
`TypeError` text is abstracted to one fixed message per entity).  The
`try` of lines 193-229 is modelled by threading the partially-updated
record and stopping at the first construction error; the `except` of
lines 230-232 appends that error's message to `extraction_errors` of the
record as it stood at the failure point. -/

structure RefDict where
  authors : Option String := none
  title : Option String := none
  year : Option Int := none
  pages : Option String := none
  publisher : Option String := none
  isbn : Option String := none
  deriving DecidableEq

/-- The weighted completeness rubric: 1 point each for a truthy subject
title, profession and positive total hours and a valid degree; up to 3
points for lecture themes (full credit at 5), 2 for literature (full at
5), 1 for labs (full at 3); the raw sum is divided by 10 and clamped to
1.0.  Empty collections score 0 via the `if rpd_data.xs:` truthiness
guards. -/
def _calculate_completeness_score (rpd : RPDData) : ℚ :=
  min 1
    (((if rpd.subject_title = "" then 0 else 1) +
      (if rpd.profession = "" then 0 else 1) +
      (if rpd.total_hours > 0 then 1 else 0) +
      (if rpd.academic_degree ∈ valid_degrees then 1 else 0) +
      (if rpd.lecture_themes = [] then 0
       else min 3 ((rpd.lecture_themes.length : ℚ) / 5 * 3)) +
      (if rpd.literature_references = [] then 0
       else min 2 ((rpd.literature_references.length : ℚ) / 5 * 2)) +
      (if rpd.lab_examples = [] then 0
       else min 1 ((rpd.lab_examples.length : ℚ) / 3 * 1))) / 10)

/-- C8: a record with a non-empty subject title and profession, positive
total hours, a valid degree, 5 lecture themes, 5 literature references
and 3 lab examples earns full credit on every rubric line, and its
completeness score is exactly 1.0. -/
theorem C8_full_rubric_scores_one (rpd : RPDData)
    (h1 : rpd.subject_title ≠ "") (h2 : rpd.profession ≠ "")
    (h3 : 0 < rpd.total_hours) (h4 : rpd.academic_degree ∈ valid_degrees)
    (h5 : rpd.lecture_themes.length = 5)
    (h6 : rpd.literature_references.length = 5)
    (h7 : rpd.lab_examples.length = 3) :
    _calculate_completeness_score rpd = 1 := by
  have e5 : rpd.lecture_themes ≠ [] := by
    intro hh
    rw [hh] at h5
    simp at h5
  have e6 : rpd.literature_references ≠ [] := by
    intro hh
    rw [hh] at h6
    simp at h6
  have e7 : rpd.lab_examples ≠ [] := by
    intro hh
    rw [hh] at h7
    simp at h7
  unfold _calculate_completeness_score
  rw [if_neg h1, if_neg h2, if_pos h3, if_pos h4, if_neg e5, if_neg e6, if_neg e7,
    h5, h6, h7]
  norm_num

def exFullRubric : RPDData :=
  { subject_title := "Программирование", academic_degree := "bachelor",
    profession := "09.03.03 Прикладная информатика", total_hours := 144,
    lecture_themes :=
      (List.range 5).map fun i =>
        { title := "Тема", order := (i : Int) + 1, hours := 2 },
    literature_references :=
      List.replicate 5 { authors := "Иванов И.И.", title := "Python" },
    lab_examples := List.replicate 3 { title := "ЛР", description := "Практика" } }

theorem C8_full_rubric_scores_one_witness :
    _calculate_completeness_score exFullRubric = 1 :=
  C8_full_rubric_scores_one exFullRubric (by decide) (by decide) (by decide)
    (by decide) rfl rfl rfl

/-! ### JSON values, encoding and strict decoding

`RPDDataExtractor._parse_json_response` (lines 347-365) delegates JSON
decoding to Python's `json` module, which is outside `src/`.

Modelled from the spec: "attempts strict JSON decoding of the slice" and
the round-trip property over `json_encode`.  `Json` is the value type
(numbers are modelled as integers: the claims never exercise float
values, and floating point is outside the embedding), `encodeJson`
produces the `json.dumps` text (item separator ", ", key separator ": ",
strings quoted with `"`/`\`/control-character escaping), and `parseVal`
is a strict recursive-descent decoder used through `jsonDecode`, which
accepts exactly one value surrounded by whitespace. -/

inductive Json where
  | null : Json
  | bool (b : Bool) : Json
  | num (n : Int) : Json
  | str (s : String) : Json
  | arr (xs : List Json) : Json
  | obj (kvs : List (String × Json)) : Json

def hexDigitCh : Nat → Char
  | 0 => '0' | 1 => '1' | 2 => '2' | 3 => '3' | 4 => '4'
  | 5 => '5' | 6 => '6' | 7 => '7' | 8 => '8' | 9 => '9'
  | 10 => 'a' | 11 => 'b' | 12 => 'c' | 13 => 'd' | 14 => 'e' | _ => 'f'

def escapeChar (c : Char) : List Char :=
  if c = '"' then ['\\', '"']
  else if c = '\\' then ['\\', '\\']
  else if c.toNat < 32 then
    ['\\', 'u', '0', '0', hexDigitCh (c.toNat / 16), hexDigitCh (c.toNat % 16)]
  else [c]

def escapeList : List Char → List Char
  | [] => []
  | c :: cs => escapeChar c ++ escapeList cs

def encodeStrChars (s : List Char) : List Char := '"' :: escapeList s ++ ['"']

def intToChars (n : Int) : List Char :=
  if n < 0 then '-' :: natToChars n.natAbs else natToChars n.toNat

mutual
def encodeJson : Json → List Char
  | .null => 'n' :: ['u', 'l', 'l']
  | .bool true => 't' :: ['r', 'u', 'e']
  | .bool false => 'f' :: ['a', 'l', 's', 'e']
  | .num n => intToChars n
  | .str s => encodeStrChars s.data
  | .arr [] => ['[', ']']
  | .arr (x :: xs) => '[' :: (encodeJson x ++ encodeElems xs) ++ [']']
  | .obj [] => ['{', '}']
  | .obj (kv :: kvs) => '{' :: (encodeMember kv ++ encodeMembers kvs) ++ ['}']

def encodeElems : List Json → List Char
  | [] => []
  | x :: xs => ',' :: ' ' :: (encodeJson x ++ encodeElems xs)

def encodeMember : String × Json → List Char
  | (k, v) => encodeStrChars k.data ++ ':' :: ' ' :: encodeJson v

def encodeMembers : List (String × Json) → List Char
  | [] => []
  | kv :: kvs => ',' :: ' ' :: (encodeMember kv ++ encodeMembers kvs)
end

def isJsonWs (c : Char) : Bool := c = ' ' || c = '\t' || c = '\n' || c = '\r'

def skipWs : List Char → List Char
  | [] => []
  | c :: cs => if isJsonWs c then skipWs cs else c :: cs

def hexVal? (c : Char) : Option Nat :=
  if 48 ≤ c.toNat && c.toNat ≤ 57 then some (c.toNat - 48)
  else if 97 ≤ c.toNat && c.toNat ≤ 102 then some (c.toNat - 87)
  else if 65 ≤ c.toNat && c.toNat ≤ 70 then some (c.toNat - 55)
  else none

def parseStrBody : List Char → List Char → Option (List Char × List Char)
  | _, [] => none
  | acc, c :: cs =>
    if c = '"' then some (acc.reverse, cs)
    else if c = '\\' then
      match cs with
      | [] => none
      | e :: cs2 =>
        if e = '"' then parseStrBody ('"' :: acc) cs2
        else if e = '\\' then parseStrBody ('\\' :: acc) cs2
        else if e = '/' then parseStrBody ('/' :: acc) cs2
        else if e = 'n' then parseStrBody ('\n' :: acc) cs2
        else if e = 't' then parseStrBody ('\t' :: acc) cs2
        else if e = 'r' then parseStrBody ('\r' :: acc) cs2
        else if e = 'b' then parseStrBody ('\x08' :: acc) cs2
        else if e = 'f' then parseStrBody ('\x0c' :: acc) cs2
        else if e = 'u' then
          match cs2 with
          | h1 :: h2 :: h3 :: h4 :: cs3 =>
            match hexVal? h1, hexVal? h2, hexVal? h3, hexVal? h4 with
            | some a, some b, some c2, some d =>
              parseStrBody (Char.ofNat (4096 * a + 256 * b + 16 * c2 + d) :: acc) cs3
            | _, _, _, _ => none
          | _ => none
        else none
    else parseStrBody (c :: acc) cs

def parseNumber : List Char → Option (Json × List Char)
  | [] => none
  | c :: cs =>
    if c = '-' then
      let ds := cs.takeWhile isDigitCh
      if ds.isEmpty then none
      else some (.num (-(charsToNat ds : Int)), cs.dropWhile isDigitCh)
    else
      let ds := (c :: cs).takeWhile isDigitCh
      if ds.isEmpty then none
      else some (.num ((charsToNat ds : Int)), (c :: cs).dropWhile isDigitCh)

mutual
def parseVal : Nat → List Char → Option (Json × List Char)
  | 0, _ => none
  | fuel + 1, cs =>
    match skipWs cs with
    | [] => none
    | c :: rest =>
      if c = '{' then
        if (skipWs rest).head? = some '}' then some (.obj [], (skipWs rest).tail)
        else parseMembers fuel (skipWs rest) []
      else if c = '[' then
        if (skipWs rest).head? = some ']' then some (.arr [], (skipWs rest).tail)
        else parseElems fuel (skipWs rest) []
      else if c = '"' then
        match parseStrBody [] rest with
        | some (s, rest2) => some (.str (String.mk s), rest2)
        | none => none
      else if c = 't' then
        match rest with
        | 'r' :: 'u' :: 'e' :: rest2 => some (.bool true, rest2)
        | _ => none
      else if c = 'f' then
        match rest with
        | 'a' :: 'l' :: 's' :: 'e' :: rest2 => some (.bool false, rest2)
        | _ => none
      else if c = 'n' then
        match rest with
        | 'u' :: 'l' :: 'l' :: rest2 => some (.null, rest2)
        | _ => none
      else parseNumber (c :: rest)

def parseElems : Nat → List Char → List Json → Option (Json × List Char)
  | 0, _, _ => none
  | fuel + 1, cs, acc =>
    match parseVal fuel cs with
    | none => none
    | some (v, r1) =>
      match skipWs r1 with
      | ']' :: r2 => some (.arr (acc ++ [v]), r2)
      | ',' :: r2 => parseElems fuel r2 (acc ++ [v])
      | _ => none

def parseMembers : Nat → List Char → List (String × Json) →
    Option (Json × List Char)
  | 0, _, _ => none
  | fuel + 1, cs, acc =>
    match skipWs cs with
    | '"' :: rest =>
      match parseStrBody [] rest with
      | none => none
      | some (k, r1) =>
        match skipWs r1 with
        | ':' :: r2 =>
          match parseVal fuel r2 with
          | none => none
          | some (v, r3) =>
            match skipWs r3 with
            | ',' :: r4 => parseMembers fuel r4 (acc ++ [(String.mk k, v)])
            | '}' :: r4 => some (.obj (acc ++ [(String.mk k, v)]), r4)
            | _ => none
        | _ => none
    | _ => none
end

/-- Strict decoding of a whole text: one JSON value, optionally surrounded
by whitespace.  The fuel `2*len+1` is sufficient for any input (each unit
of nesting consumes input). -/
def jsonDecode (cs : List Char) : Option Json :=
  match parseVal (2 * cs.length + 1) cs with
  | some (v, rest) => if skipWs rest = [] then some v else none
  | none => none

/-- Python `str.find`: index of the first occurrence, `None` for -1. -/
def indexOfCh : List Char → Char → Option Nat
  | [], _ => none
  | x :: xs, c => if x = c then some 0 else (indexOfCh xs c).map (· + 1)

/-- Python `str.rfind`: index of the last occurrence, `None` for -1. -/
def lastIndexOfCh (cs : List Char) (c : Char) : Option Nat :=
  (indexOfCh cs.reverse c).map (fun k => cs.length - 1 - k)

/-- `RPDDataExtractor._parse_json_response` (lines 347-365): strip the
response, slice from the first `{` to the last `}` inclusive, decode the
slice strictly; any decode failure (the caught `json.JSONDecodeError`)
and any missing brace yield `None`. -/
def _parse_json_response (s : String) : Option Json :=
  match indexOfCh (pyStripChars s.data) '{', lastIndexOfCh (pyStripChars s.data) '}' with
  | some i, some j => jsonDecode (((pyStripChars s.data).take (j + 1)).drop i)
  | _, _ => none

/-! ### Round-trip lemmas: characters, whitespace, strings, numbers -/

theorem String_mk_data (s : String) : String.mk s.data = s := by
  cases s
  rfl

def headDigitFree (cs : List Char) : Bool :=
  cs.head?.all (fun c => !isDigitCh c)

theorem ws_not_digit (c : Char) (h : isJsonWs c = true) : isDigitCh c = false := by
  unfold isJsonWs at h
  simp only [Bool.or_eq_true, decide_eq_true_eq] at h
  rcases h with ((h | h) | h) | h <;> subst h <;> decide

theorem isDigit_ne {c : Char} (h : isDigitCh c = true) (d : Char)
    (hd : isDigitCh d = false) : c ≠ d := by
  intro he
  rw [he, hd] at h
  exact Bool.false_ne_true h

theorem digit_not_ws {c : Char} (h : isDigitCh c = true) : isJsonWs c = false := by
  cases hb : isJsonWs c with
  | false => rfl
  | true =>
    rw [ws_not_digit c hb] at h
    exact absurd h Bool.false_ne_true

theorem skipWs_cons_not_ws {c : Char} (h : isJsonWs c = false) (cs : List Char) :
    skipWs (c :: cs) = c :: cs := by
  simp [skipWs, h]

theorem parseVal_cons_ws {c : Char} (h : isJsonWs c = true) (fuel : Nat)
    (cs : List Char) : parseVal fuel (c :: cs) = parseVal fuel cs := by
  cases fuel with
  | zero => rfl
  | succ f =>
    show (match skipWs (c :: cs) with
          | [] => none
          | c :: rest => _) = _
    rw [show skipWs (c :: cs) = skipWs cs from by simp [skipWs, h]]
    rfl

theorem parseElems_cons_ws {c : Char} (h : isJsonWs c = true) (fuel : Nat)
    (cs : List Char) (acc : List Json) :
    parseElems fuel (c :: cs) acc = parseElems fuel cs acc := by
  cases fuel with
  | zero => rfl
  | succ f =>
    conv_lhs => unfold parseElems
    conv_rhs => unfold parseElems
    rw [parseVal_cons_ws h]

theorem parseMembers_cons_ws {c : Char} (h : isJsonWs c = true) (fuel : Nat)
    (cs : List Char) (acc : List (String × Json)) :
    parseMembers fuel (c :: cs) acc = parseMembers fuel cs acc := by
  cases fuel with
  | zero => rfl
  | succ f =>
    conv_lhs => unfold parseMembers
    conv_rhs => unfold parseMembers
    rw [show skipWs (c :: cs) = skipWs cs from by simp [skipWs, h]]

theorem natToChars_head (n : Nat) :
    ∃ d t, natToChars n = d :: t ∧ isDigitCh d = true := by
  induction n using Nat.strong_induction_on with
  | _ n ih =>
    unfold natToChars
    split
    · exact ⟨digitCh n, [], rfl, digitCh_isDigit n⟩
    · obtain ⟨d, t, hdt, hd⟩ := ih (n / 10) (Nat.div_lt_self (by omega) (by omega))
      exact ⟨d, t ++ [digitCh (n % 10)], by rw [hdt]; rfl, hd⟩

theorem natToChars_ne_nil (n : Nat) : natToChars n ≠ [] := by
  obtain ⟨d, t, hdt, _⟩ := natToChars_head n
  rw [hdt]
  exact List.cons_ne_nil d t

theorem dropWhile_append_all {p : Char → Bool} {xs ys : List Char}
    (hxs : ∀ c ∈ xs, p c = true) (hys : ys.head?.all (fun c => !p c) = true) :
    List.dropWhile p (xs ++ ys) = ys := by
  induction xs with
  | nil =>
    cases ys with
    | nil => rfl
    | cons y ys =>
      simp at hys
      simp [List.dropWhile_cons, hys]
  | cons x xs ih =>
    have hx := hxs x (by simp)
    simp only [List.cons_append, List.dropWhile_cons, hx, if_pos]
    exact ih (fun c hc => hxs c (by simp [hc]))

theorem hexVal_hexDigitCh (d : Nat) (h : d < 16) :
    hexVal? (hexDigitCh d) = some d := by
  interval_cases d <;> decide

theorem parseStrBody_quote (acc rest : List Char) :
    parseStrBody acc ('"' :: rest) = some (acc.reverse, rest) := by
  unfold parseStrBody
  simp

theorem parseStrBody_esc_quote (acc Z : List Char) :
    parseStrBody acc ('\\' :: '"' :: Z) = parseStrBody ('"' :: acc) Z := by
  conv_lhs => unfold parseStrBody
  simp

theorem parseStrBody_esc_backslash (acc Z : List Char) :
    parseStrBody acc ('\\' :: '\\' :: Z) = parseStrBody ('\\' :: acc) Z := by
  conv_lhs => unfold parseStrBody
  simp

theorem parseStrBody_plain (acc Z : List Char) (c : Char)
    (h1 : ¬ c = '"') (h2 : ¬ c = '\\') :
    parseStrBody acc (c :: Z) = parseStrBody (c :: acc) Z := by
  conv_lhs => unfold parseStrBody
  simp [h1, h2]

theorem parseStrBody_esc_u (acc Z : List Char) (u1 u2 : Char) (a b : Nat)
    (hu1 : hexVal? u1 = some a) (hu2 : hexVal? u2 = some b) :
    parseStrBody acc ('\\' :: 'u' :: '0' :: '0' :: u1 :: u2 :: Z) =
      parseStrBody (Char.ofNat (16 * a + b) :: acc) Z := by
  conv_lhs => unfold parseStrBody
  simp [show hexVal? '0' = some 0 from by decide, hu1, hu2]

theorem parseStrBody_escape (s : List Char) : ∀ acc rest,
    parseStrBody acc (escapeList s ++ '"' :: rest) =
      some (acc.reverse ++ s, rest) := by
  induction s with
  | nil =>
    intro acc rest
    simp only [escapeList, List.nil_append]
    rw [parseStrBody_quote]
    simp
  | cons c s ih =>
    intro acc rest
    simp only [escapeList, List.append_assoc]
    by_cases h1 : c = '"'
    · subst h1
      rw [show escapeChar '"' = ['\\', '"'] from rfl]
      rw [show (['\\', '"'] : List Char) ++ (escapeList s ++ '"' :: rest) =
            '\\' :: '"' :: (escapeList s ++ '"' :: rest) from rfl]
      rw [parseStrBody_esc_quote, ih]
      simp
    · by_cases h2 : c = '\\'
      · subst h2
        rw [show escapeChar '\\' = ['\\', '\\'] from rfl]
        rw [show (['\\', '\\'] : List Char) ++ (escapeList s ++ '"' :: rest) =
              '\\' :: '\\' :: (escapeList s ++ '"' :: rest) from rfl]
        rw [parseStrBody_esc_backslash, ih]
        simp
      · by_cases h3 : c.toNat < 32
        · rw [show escapeChar c =
                ['\\', 'u', '0', '0', hexDigitCh (c.toNat / 16),
                 hexDigitCh (c.toNat % 16)]
              from by unfold escapeChar; rw [if_neg h1, if_neg h2, if_pos h3]]
          rw [show (['\\', 'u', '0', '0', hexDigitCh (c.toNat / 16),
                hexDigitCh (c.toNat % 16)] : List Char) ++
                (escapeList s ++ '"' :: rest) =
              '\\' :: 'u' :: '0' :: '0' :: hexDigitCh (c.toNat / 16) ::
                hexDigitCh (c.toNat % 16) :: (escapeList s ++ '"' :: rest) from rfl]
          rw [parseStrBody_esc_u _ _ _ _ _ _
                (hexVal_hexDigitCh _ (by omega)) (hexVal_hexDigitCh _ (by omega))]
          rw [show 16 * (c.toNat / 16) + c.toNat % 16 = c.toNat from by omega]
          rw [Char.ofNat_toNat, ih]
          simp
        · rw [show escapeChar c = [c] from by
              unfold escapeChar; rw [if_neg h1, if_neg h2, if_neg h3]]
          rw [show ([c] : List Char) ++ (escapeList s ++ '"' :: rest) =
                c :: (escapeList s ++ '"' :: rest) from rfl]
          rw [parseStrBody_plain _ _ _ h1 h2, ih]
          simp

/-- Evaluating one `parseVal` step on a non-whitespace head character. -/
theorem parseVal_cons (f : Nat) (c : Char) (rest : List Char)
    (hws : isJsonWs c = false) :
    parseVal (f + 1) (c :: rest) =
      if c = '{' then
        if (skipWs rest).head? = some '}' then some (.obj [], (skipWs rest).tail)
        else parseMembers f (skipWs rest) []
      else if c = '[' then
        if (skipWs rest).head? = some ']' then some (.arr [], (skipWs rest).tail)
        else parseElems f (skipWs rest) []
      else if c = '"' then
        match parseStrBody [] rest with
        | some (s, rest2) => some (.str (String.mk s), rest2)
        | none => none
      else if c = 't' then
        match rest with
        | 'r' :: 'u' :: 'e' :: rest2 => some (.bool true, rest2)
        | _ => none
      else if c = 'f' then
        match rest with
        | 'a' :: 'l' :: 's' :: 'e' :: rest2 => some (.bool false, rest2)
        | _ => none
      else if c = 'n' then
        match rest with
        | 'u' :: 'l' :: 'l' :: rest2 => some (.null, rest2)
        | _ => none
      else parseNumber (c :: rest) := by
  conv_lhs => unfold parseVal
  rw [skipWs_cons_not_ws hws]

theorem parseNumber_intToChars (n : Int) (rest : List Char)
    (hdf : headDigitFree rest = true) :
    parseNumber (intToChars n ++ rest) = some (.num n, rest) := by
  unfold headDigitFree at hdf
  have htw : ∀ m : Nat, (natToChars m ++ rest).takeWhile isDigitCh = natToChars m :=
    fun m => takeWhile_append_all (natToChars_digits m) hdf
  have hdw : ∀ m : Nat, (natToChars m ++ rest).dropWhile isDigitCh = rest :=
    fun m => dropWhile_append_all (natToChars_digits m) hdf
  have hni : ∀ m : Nat, (natToChars m).isEmpty = false := by
    intro m
    obtain ⟨d, t, hdt, _⟩ := natToChars_head m
    rw [hdt]
    rfl
  unfold intToChars
  split
  · rename_i hneg
    rw [List.cons_append, parseNumber, if_pos rfl]
    simp only [htw, hdw, hni, Bool.false_eq_true, if_false, charsToNat_natToChars]
    rw [show -((n.natAbs : Nat) : Int) = n from by omega]
  · rename_i hneg
    obtain ⟨d, t, hdt, hd⟩ := natToChars_head n.toNat
    rw [hdt, List.cons_append, parseNumber,
      if_neg (isDigit_ne hd '-' (by decide))]
    rw [← List.cons_append, ← hdt]
    simp only [htw, hdw, hni, Bool.false_eq_true, if_false, charsToNat_natToChars]
    rw [show ((n.toNat : Nat) : Int) = n from by omega]

theorem encodeJson_head (v : Json) :
    ∃ c t, encodeJson v = c :: t ∧ isJsonWs c = false ∧
      c ≠ ']' ∧ c ≠ '}' ∧ c ≠ ',' := by
  cases v with
  | null =>
    refine ⟨'n', ['u', 'l', 'l'], ?_, by decide, by decide, by decide, by decide⟩
    rw [encodeJson]
  | bool b =>
    cases b with
    | false =>
      refine ⟨'f', ['a', 'l', 's', 'e'], ?_, by decide, by decide, by decide, by decide⟩
      rw [encodeJson]
    | true =>
      refine ⟨'t', ['r', 'u', 'e'], ?_, by decide, by decide, by decide, by decide⟩
      rw [encodeJson]
  | num n =>
    by_cases hneg : n < 0
    · refine ⟨'-', natToChars n.natAbs, ?_, by decide, by decide, by decide, by decide⟩
      rw [encodeJson]
      unfold intToChars
      rw [if_pos hneg]
    · obtain ⟨d, t, hdt, hd⟩ := natToChars_head n.toNat
      refine ⟨d, t, ?_, digit_not_ws hd, isDigit_ne hd ']' (by decide),
        isDigit_ne hd '}' (by decide), isDigit_ne hd ',' (by decide)⟩
      rw [encodeJson]
      unfold intToChars
      rw [if_neg hneg, hdt]
  | str s =>
    refine ⟨'"', escapeList s.data ++ ['"'], ?_, by decide, by decide, by decide,
      by decide⟩
    rw [encodeJson]
    unfold encodeStrChars
    simp
  | arr xs =>
    cases xs with
    | nil =>
      refine ⟨'[', [']'], ?_, by decide, by decide, by decide, by decide⟩
      rw [encodeJson]
    | cons x xs =>
      refine ⟨'[', (encodeJson x ++ encodeElems xs) ++ [']'], ?_, by decide,
        by decide, by decide, by decide⟩
      rw [encodeJson]
      simp
  | obj kvs =>
    cases kvs with
    | nil =>
      refine ⟨'{', ['}'], ?_, by decide, by decide, by decide, by decide⟩
      rw [encodeJson]
    | cons kv kvs =>
      refine ⟨'{', (encodeMember kv ++ encodeMembers kvs) ++ ['}'], ?_, by decide,
        by decide, by decide, by decide⟩
      rw [encodeJson]
      simp

theorem encodeJson_length_pos (v : Json) : 1 ≤ (encodeJson v).length := by
  obtain ⟨c, t, h, _⟩ := encodeJson_head v
  rw [h]
  simp

theorem encodeMember_eq (k : String) (v : Json) :
    encodeMember (k, v) =
      '"' :: (escapeList k.data ++ '"' :: ':' :: ' ' :: encodeJson v) := by
  rw [encodeMember]
  unfold encodeStrChars
  simp

theorem skipWs_cons (c : Char) (cs : List Char) :
    skipWs (c :: cs) = if isJsonWs c then skipWs cs else c :: cs := by
  rw [skipWs]

theorem encodeMember_length (k : String) (v : Json) :
    (encodeMember (k, v)).length =
      (escapeList k.data).length + (encodeJson v).length + 4 := by
  rw [encodeMember_eq]
  simp [List.length_append]
  omega

theorem encodeJson_arr_cons_length (x : Json) (xs : List Json) :
    (encodeJson (.arr (x :: xs))).length =
      (encodeJson x).length + (encodeElems xs).length + 2 := by
  rw [encodeJson]
  simp [List.length_append]
  omega

theorem encodeJson_obj_cons_length (kv : String × Json) (kvs : List (String × Json)) :
    (encodeJson (.obj (kv :: kvs))).length =
      (encodeMember kv).length + (encodeMembers kvs).length + 2 := by
  rw [encodeJson]
  simp [List.length_append]
  omega

theorem encodeElems_cons_length (y : Json) (ys : List Json) :
    (encodeElems (y :: ys)).length =
      (encodeJson y).length + (encodeElems ys).length + 2 := by
  rw [encodeElems]
  simp [List.length_append]

theorem encodeMembers_cons_length (kv : String × Json) (kvs : List (String × Json)) :
    (encodeMembers (kv :: kvs)).length =
      (encodeMember kv).length + (encodeMembers kvs).length + 2 := by
  rw [encodeMembers]
  simp [List.length_append]

/-- Main round-trip invariant, by strong induction on the parser fuel:
a value encoded by `encodeJson` followed by a digit-free remainder parses
back to itself, and likewise for the element and member loops. -/
theorem parse_encode_master (fuel : Nat) :
    (∀ v rest, 2 * (encodeJson v ++ rest).length < fuel →
      headDigitFree rest = true →
      parseVal fuel (encodeJson v ++ rest) = some (v, rest)) ∧
    (∀ x xs acc rest,
      2 * (encodeJson x ++ (encodeElems xs ++ ']' :: rest)).length + 1 < fuel →
      parseElems fuel (encodeJson x ++ (encodeElems xs ++ ']' :: rest)) acc =
        some (.arr (acc ++ x :: xs), rest)) ∧
    (∀ k v kvs acc rest,
      2 * (encodeMember (k, v) ++ (encodeMembers kvs ++ '}' :: rest)).length + 1 < fuel →
      parseMembers fuel (encodeMember (k, v) ++ (encodeMembers kvs ++ '}' :: rest)) acc =
        some (.obj (acc ++ (k, v) :: kvs), rest)) := by
  induction fuel using Nat.strong_induction_on with
  | _ fuel ih =>
    cases fuel with
    | zero =>
      refine ⟨?_, ?_, ?_⟩
      · intro v rest hlen _
        exact absurd hlen (by omega)
      · intro x xs acc rest hlen
        exact absurd hlen (by omega)
      · intro k v kvs acc rest hlen
        exact absurd hlen (by omega)
    | succ m =>
      obtain ⟨IH1, IH2, IH3⟩ := ih m (Nat.lt_succ_self m)
      refine ⟨?_, ?_, ?_⟩
      · -- parseVal
        intro v rest hlen hdf
        cases v with
        | null =>
          rw [encodeJson]
          rw [show (['n', 'u', 'l', 'l'] : List Char) ++ rest =
                'n' :: 'u' :: 'l' :: 'l' :: rest from rfl]
          rw [parseVal_cons m 'n' _ (by decide)]
          rw [if_neg (by decide), if_neg (by decide), if_neg (by decide),
            if_neg (by decide), if_neg (by decide), if_pos rfl]
          rfl
        | bool b =>
          cases b with
          | true =>
            rw [encodeJson]
            rw [show (['t', 'r', 'u', 'e'] : List Char) ++ rest =
                  't' :: 'r' :: 'u' :: 'e' :: rest from rfl]
            rw [parseVal_cons m 't' _ (by decide)]
            rw [if_neg (by decide), if_neg (by decide), if_neg (by decide),
              if_pos rfl]
            rfl
          | false =>
            rw [encodeJson]
            rw [show (['f', 'a', 'l', 's', 'e'] : List Char) ++ rest =
                  'f' :: 'a' :: 'l' :: 's' :: 'e' :: rest from rfl]
            rw [parseVal_cons m 'f' _ (by decide)]
            rw [if_neg (by decide), if_neg (by decide), if_neg (by decide),
              if_neg (by decide), if_pos rfl]
            rfl
        | num n =>
          rw [encodeJson]
          by_cases hneg : n < 0
          · have hi : intToChars n = '-' :: natToChars n.natAbs := by
              unfold intToChars
              rw [if_pos hneg]
            rw [hi, List.cons_append, parseVal_cons m '-' _ (by decide)]
            rw [if_neg (by decide), if_neg (by decide), if_neg (by decide),
              if_neg (by decide), if_neg (by decide), if_neg (by decide)]
            rw [← List.cons_append, ← hi]
            exact parseNumber_intToChars n rest hdf
          · have hi : intToChars n = natToChars n.toNat := by
              unfold intToChars
              rw [if_neg hneg]
            obtain ⟨d, t, hdt, hd⟩ := natToChars_head n.toNat
            rw [hi, hdt, List.cons_append, parseVal_cons m d _ (digit_not_ws hd)]
            rw [if_neg (isDigit_ne hd '{' (by decide)),
              if_neg (isDigit_ne hd '[' (by decide)),
              if_neg (isDigit_ne hd '"' (by decide)),
              if_neg (isDigit_ne hd 't' (by decide)),
              if_neg (isDigit_ne hd 'f' (by decide)),
              if_neg (isDigit_ne hd 'n' (by decide))]
            rw [← List.cons_append, ← hdt, ← hi]
            exact parseNumber_intToChars n rest hdf
        | str s =>
          rw [encodeJson]
          unfold encodeStrChars
          simp only [List.cons_append, List.append_assoc, List.singleton_append,
            List.nil_append]
          rw [parseVal_cons m '"' _ (by decide)]
          rw [if_neg (by decide), if_neg (by decide), if_pos rfl]
          rw [parseStrBody_escape]
          simp [String_mk_data]
        | arr xs =>
          cases xs with
          | nil =>
            rw [encodeJson]
            rw [show (['[', ']'] : List Char) ++ rest = '[' :: ']' :: rest from rfl]
            rw [parseVal_cons m '[' _ (by decide)]
            rw [if_neg (by decide), if_pos rfl]
            rw [skipWs_cons_not_ws (by decide)]
            rw [if_pos (show ((']' :: rest : List Char)).head? = some ']' from rfl)]
            rfl
          | cons x xs =>
            have hlen2 := encodeJson_arr_cons_length x xs
            rw [encodeJson]
            simp only [List.cons_append, List.append_assoc, List.singleton_append,
            List.nil_append]
            rw [parseVal_cons m '[' _ (by decide)]
            rw [if_neg (by decide), if_pos rfl]
            obtain ⟨c0, t0, henc, hws0, hne1, hne2, hne3⟩ := encodeJson_head x
            have hskip : skipWs (encodeJson x ++ (encodeElems xs ++ ']' :: rest)) =
                encodeJson x ++ (encodeElems xs ++ ']' :: rest) := by
              rw [henc, List.cons_append]
              exact skipWs_cons_not_ws hws0 _
            have hhead : ¬ (encodeJson x ++
                (encodeElems xs ++ ']' :: rest)).head? = some ']' := by
              rw [henc, List.cons_append]
              simp [hne1]
            rw [hskip, if_neg hhead]
            rw [IH2 x xs [] rest (by
              simp only [List.length_append, List.length_cons] at hlen ⊢
              omega)]
            simp
        | obj kvs =>
          cases kvs with
          | nil =>
            rw [encodeJson]
            rw [show (['{', '}'] : List Char) ++ rest = '{' :: '}' :: rest from rfl]
            rw [parseVal_cons m '{' _ (by decide)]
            rw [if_pos rfl]
            rw [skipWs_cons_not_ws (by decide)]
            rw [if_pos (show (('}' :: rest : List Char)).head? = some '}' from rfl)]
            rfl
          | cons kv kvs =>
            obtain ⟨k, v⟩ := kv
            have hlen2 := encodeJson_obj_cons_length (k, v) kvs
            rw [encodeJson]
            simp only [List.cons_append, List.append_assoc, List.singleton_append,
            List.nil_append]
            rw [parseVal_cons m '{' _ (by decide)]
            rw [if_pos rfl]
            have hskip : skipWs (encodeMember (k, v) ++
                  (encodeMembers kvs ++ '}' :: rest)) =
                encodeMember (k, v) ++ (encodeMembers kvs ++ '}' :: rest) := by
              rw [encodeMember_eq, List.cons_append]
              exact skipWs_cons_not_ws (by decide) _
            have hhead : ¬ (encodeMember (k, v) ++
                (encodeMembers kvs ++ '}' :: rest)).head? = some '}' := by
              rw [encodeMember_eq, List.cons_append]
              simp
            rw [hskip, if_neg hhead]
            rw [IH3 k v kvs [] rest (by
              simp only [List.length_append, List.length_cons] at hlen ⊢
              omega)]
            simp
      · -- parseElems
        intro x xs acc rest hlen
        cases xs with
        | nil =>
          rw [show encodeElems ([] : List Json) = [] from by rw [encodeElems]] at hlen ⊢
          rw [List.nil_append] at hlen ⊢
          conv_lhs => unfold parseElems
          rw [IH1 x (']' :: rest) (by
            simp only [List.length_append, List.length_cons] at hlen ⊢
            omega) rfl]
          simp only []
          rw [skipWs_cons_not_ws (by decide)]
          simp
        | cons y ys =>
          have hyl := encodeElems_cons_length y ys
          rw [show encodeElems (y :: ys) =
                ',' :: ' ' :: (encodeJson y ++ encodeElems ys) from by
              rw [encodeElems]] at hlen ⊢
          simp only [List.cons_append, List.append_assoc] at hlen ⊢
          conv_lhs => unfold parseElems
          rw [IH1 x (',' :: ' ' :: (encodeJson y ++ (encodeElems ys ++ ']' :: rest)))
            (by
              simp only [List.length_append, List.length_cons] at hlen ⊢
              omega) rfl]
          simp only []
          rw [skipWs_cons_not_ws (by decide)]
          simp only []
          rw [show (parseElems m (' ' :: (encodeJson y ++ (encodeElems ys ++ ']' :: rest)))
                (acc ++ [x])) =
              parseElems m (encodeJson y ++ (encodeElems ys ++ ']' :: rest))
                (acc ++ [x]) from
            parseElems_cons_ws (by decide) m _ _]
          rw [IH2 y ys (acc ++ [x]) rest (by
            simp only [List.length_append, List.length_cons] at hlen ⊢
            omega)]
          simp
      · -- parseMembers
        intro k v kvs acc rest hlen
        have hkl := encodeMember_length k v
        conv_lhs => rw [encodeMember_eq]
        rw [List.cons_append]
        conv_lhs => unfold parseMembers
        rw [skipWs_cons_not_ws (by decide)]
        simp only [List.append_assoc, List.cons_append]
        rw [show escapeList k.data ++ '"' :: ':' :: ' ' ::
              (encodeJson v ++ (encodeMembers kvs ++ '}' :: rest)) =
            escapeList k.data ++ '"' ::
              (':' :: ' ' :: (encodeJson v ++ (encodeMembers kvs ++ '}' :: rest)))
          from rfl]
        rw [parseStrBody_escape]
        simp only []
        rw [skipWs_cons_not_ws (by decide)]
        simp only []
        rw [parseVal_cons_ws (by decide)]
        cases kvs with
        | nil =>
          rw [show encodeMembers ([] : List (String × Json)) = [] from by
            rw [encodeMembers]] at hlen ⊢
          rw [List.nil_append] at hlen ⊢
          rw [IH1 v ('}' :: rest) (by
            simp only [List.length_append, List.length_cons] at hlen ⊢
            omega) rfl]
          simp only []
          rw [skipWs_cons_not_ws (by decide)]
          simp [String_mk_data]
        | cons kv2 kvs2 =>
          obtain ⟨k2, v2⟩ := kv2
          have hml := encodeMembers_cons_length (k2, v2) kvs2
          rw [show encodeMembers ((k2, v2) :: kvs2) =
                ',' :: ' ' :: (encodeMember (k2, v2) ++ encodeMembers kvs2) from by
              rw [encodeMembers]] at hlen ⊢
          simp only [List.cons_append, List.append_assoc] at hlen ⊢
          rw [IH1 v (',' :: ' ' ::
              (encodeMember (k2, v2) ++ (encodeMembers kvs2 ++ '}' :: rest)))
            (by
              simp only [List.length_append, List.length_cons] at hlen ⊢
              omega) rfl]
          simp only []
          rw [skipWs_cons_not_ws (by decide)]
          simp only [List.reverse_nil, List.nil_append]
          rw [show parseMembers m (' ' ::
                (encodeMember (k2, v2) ++ (encodeMembers kvs2 ++ '}' :: rest)))
                (acc ++ [(String.mk k.data, v)]) =
              parseMembers m
                (encodeMember (k2, v2) ++ (encodeMembers kvs2 ++ '}' :: rest))
                (acc ++ [(String.mk k.data, v)]) from
            parseMembers_cons_ws (by decide) m _ _]
          rw [IH3 k2 v2 kvs2 (acc ++ [(String.mk k.data, v)]) rest (by
            simp only [List.length_append, List.length_cons] at hlen ⊢
            omega)]
          simp [String_mk_data]

theorem jsonDecode_encode (v : Json) : jsonDecode (encodeJson v) = some v := by
  unfold jsonDecode
  have h := (parse_encode_master (2 * (encodeJson v).length + 1)).1 v []
    (by simp) rfl
  rw [List.append_nil] at h
  rw [h]
  rfl

/-- Shape of an encoded object: opening and closing braces around a body. -/
theorem encodeObj_shape (kvs : List (String × Json)) :
    ∃ mid, encodeJson (.obj kvs) = '{' :: (mid ++ ['}']) := by
  cases kvs with
  | nil =>
    refine ⟨[], ?_⟩
    rw [encodeJson]
    rfl
  | cons kv kvs =>
    refine ⟨encodeMember kv ++ encodeMembers kvs, ?_⟩
    rw [encodeJson]
    simp

def braceFree (cs : List Char) : Prop := ∀ c ∈ cs, c ≠ '{' ∧ c ≠ '}'

instance braceFree_decidable (cs : List Char) : Decidable (braceFree cs) := by
  unfold braceFree
  infer_instance

theorem mem_of_mem_dropWhile {p : Char → Bool} {x : Char} :
    ∀ {l : List Char}, x ∈ List.dropWhile p l → x ∈ l := by
  intro l
  induction l with
  | nil => simp
  | cons a l ih =>
    rw [List.dropWhile_cons]
    split
    · intro h
      exact List.mem_cons_of_mem a (ih h)
    · intro h
      exact h

theorem dropWhile_append_head {p : Char → Bool} {ys : List Char}
    (hy : ys.head?.all (fun c => !p c) = true) (xs : List Char) :
    List.dropWhile p (xs ++ ys) = List.dropWhile p xs ++ ys := by
  induction xs with
  | nil =>
    cases ys with
    | nil => rfl
    | cons y ys =>
      simp at hy
      simp [List.dropWhile_cons, hy]
  | cons x xs ih =>
    rw [List.cons_append, List.dropWhile_cons, List.dropWhile_cons]
    split
    · exact ih
    · rw [List.cons_append]

/-- Stripping a text consisting of an encoded JSON value surrounded by
prose only shortens the prose. -/
theorem pyStripChars_wrap (p1 p2 mid : List Char) :
    pyStripChars (p1 ++ ('{' :: (mid ++ ['}'])) ++ p2) =
      List.dropWhile isPyWs p1 ++ ('{' :: (mid ++ ['}'])) ++
        (List.dropWhile isPyWs p2.reverse).reverse := by
  unfold pyStripChars
  rw [List.append_assoc, dropWhile_append_head (by rfl)]
  rw [show List.dropWhile isPyWs p1 ++ ('{' :: (mid ++ ['}']) ++ p2) =
        (List.dropWhile isPyWs p1 ++ ('{' :: mid) ++ ['}']) ++ p2 from by simp]
  rw [List.reverse_append]
  rw [dropWhile_append_head (by simp [isPyWs])]
  rw [List.reverse_append, List.reverse_reverse]
  simp

theorem indexOfCh_append_first {p1 : List Char} {c : Char}
    (h : ∀ x ∈ p1, x ≠ c) (t : List Char) :
    indexOfCh (p1 ++ c :: t) c = some p1.length := by
  induction p1 with
  | nil => simp [indexOfCh]
  | cons a p1 ih =>
    have ha := h a (by simp)
    rw [List.cons_append]
    rw [show indexOfCh (a :: (p1 ++ c :: t)) c =
          if a = c then some 0 else (indexOfCh (p1 ++ c :: t) c).map (· + 1)
        from by rw [indexOfCh]]
    rw [if_neg ha, ih (fun x hx => h x (by simp [hx]))]
    rfl

theorem lastIndexOfCh_append (A : List Char) (c : Char) {B : List Char}
    (h : ∀ x ∈ B, x ≠ c) :
    lastIndexOfCh (A ++ c :: B) c = some A.length := by
  unfold lastIndexOfCh
  rw [show (A ++ c :: B).reverse = B.reverse ++ c :: A.reverse from by simp]
  rw [indexOfCh_append_first (fun x hx => h x (List.mem_reverse.mp hx))]
  simp [List.length_append, List.length_reverse]

/-- C6: for every object `d` and brace-free surrounding prose, the
response parser recovers exactly `d` from `prose ++ json_encode(d) ++
prose`: the slice from the first `{` to the last `}` is precisely the
encoded object, and strict decoding inverts the encoding. -/
theorem C6_response_parser_roundtrip (kvs : List (String × Json)) (p1 p2 : List Char)
    (h1 : braceFree p1) (h2 : braceFree p2) :
    _parse_json_response (String.mk (p1 ++ encodeJson (.obj kvs) ++ p2)) =
      some (.obj kvs) := by
  obtain ⟨mid, hmid⟩ := encodeObj_shape kvs
  unfold _parse_json_response
  rw [show (String.mk (p1 ++ encodeJson (.obj kvs) ++ p2)).data =
        p1 ++ encodeJson (.obj kvs) ++ p2 from rfl]
  rw [hmid, pyStripChars_wrap]
  have hq1b : ∀ x ∈ List.dropWhile isPyWs p1, x ≠ '{' :=
    fun x hx => (h1 x (mem_of_mem_dropWhile hx)).1
  have hq2b : ∀ x ∈ (List.dropWhile isPyWs p2.reverse).reverse, x ≠ '}' :=
    fun x hx =>
      (h2 x (List.mem_reverse.mp (mem_of_mem_dropWhile (List.mem_reverse.mp hx)))).2
  have hidx : indexOfCh (List.dropWhile isPyWs p1 ++ ('{' :: (mid ++ ['}'])) ++
      (List.dropWhile isPyWs p2.reverse).reverse) '{' =
      some (List.dropWhile isPyWs p1).length := by
    rw [List.append_assoc]
    rw [show ('{' :: (mid ++ ['}'])) ++ (List.dropWhile isPyWs p2.reverse).reverse =
          '{' :: ((mid ++ ['}']) ++ (List.dropWhile isPyWs p2.reverse).reverse)
        from rfl]
    exact indexOfCh_append_first hq1b _
  have hlast : lastIndexOfCh (List.dropWhile isPyWs p1 ++ ('{' :: (mid ++ ['}'])) ++
      (List.dropWhile isPyWs p2.reverse).reverse) '}' =
      some (List.dropWhile isPyWs p1 ++ '{' :: mid).length := by
    rw [show List.dropWhile isPyWs p1 ++ ('{' :: (mid ++ ['}'])) ++
          (List.dropWhile isPyWs p2.reverse).reverse =
        (List.dropWhile isPyWs p1 ++ '{' :: mid) ++ '}' ::
          (List.dropWhile isPyWs p2.reverse).reverse from by simp]
    exact lastIndexOfCh_append _ _ hq2b
  rw [hidx, hlast]
  simp only []
  rw [show ((List.dropWhile isPyWs p1 ++ ('{' :: (mid ++ ['}'])) ++
        (List.dropWhile isPyWs p2.reverse).reverse).take
          ((List.dropWhile isPyWs p1 ++ '{' :: mid).length + 1)).drop
        (List.dropWhile isPyWs p1).length = '{' :: (mid ++ ['}']) from by
    rw [show List.dropWhile isPyWs p1 ++ ('{' :: (mid ++ ['}'])) ++
          (List.dropWhile isPyWs p2.reverse).reverse =
        (List.dropWhile isPyWs p1 ++ ('{' :: (mid ++ ['}']))) ++
          (List.dropWhile isPyWs p2.reverse).reverse from by simp]
    rw [show (List.dropWhile isPyWs p1 ++ '{' :: mid).length + 1 =
          (List.dropWhile isPyWs p1 ++ ('{' :: (mid ++ ['}']))).length from by
      simp [List.length_append]
      omega]
    rw [List.take_left, List.drop_left]]
  rw [← hmid]
  exact jsonDecode_encode _

def exKvs : List (String × Json) :=
  [("subject_title", .str "X"), ("total_hours", .num 50)]

theorem C6_response_parser_roundtrip_witness :
    braceFree ("Here is your data: ".data) ∧
    braceFree (" - let me know if you need more.".data) ∧
    _parse_json_response (String.mk ("Here is your data: ".data ++
        encodeJson (.obj exKvs) ++ " - let me know if you need more.".data)) =
      some (.obj exKvs) ∧
    _parse_json_response
        "Here is your data: \x7b\"subject_title\": \"X\", \"total_hours\": 50\x7d - let me know." =
      some (.obj exKvs) := by
  refine ⟨by decide, by decide,
    C6_response_parser_roundtrip exKvs _ _ (by decide) (by decide), rfl⟩

theorem indexOfCh_mem : ∀ {cs : List Char} {c : Char} {i : Nat},
    indexOfCh cs c = some i → c ∈ cs := by
  intro cs
  induction cs with
  | nil => intro c i h; simp [indexOfCh] at h
  | cons a t ih =>
    intro c i h
    rw [show indexOfCh (a :: t) c =
          if a = c then some 0 else (indexOfCh t c).map (· + 1) from by
        rw [indexOfCh]] at h
    split at h
    · rename_i ha
      rw [ha]
      exact List.mem_cons_self c t
    · rw [Option.map_eq_some'] at h
      obtain ⟨i2, hi2, _⟩ := h
      exact List.mem_cons_of_mem a (ih hi2)

theorem lastIndexOfCh_mem {cs : List Char} {c : Char} {j : Nat}
    (h : lastIndexOfCh cs c = some j) : c ∈ cs := by
  unfold lastIndexOfCh at h
  rw [Option.map_eq_some'] at h
  obtain ⟨k, hk, _⟩ := h
  exact List.mem_reverse.mp (indexOfCh_mem hk)

theorem mem_pyStripChars {x : Char} {l : List Char} (h : x ∈ pyStripChars l) :
    x ∈ l := by
  unfold pyStripChars at h
  rw [List.mem_reverse] at h
  have h2 := mem_of_mem_dropWhile h
  rw [List.mem_reverse] at h2
  exact mem_of_mem_dropWhile h2

theorem indexOfCh_get : ∀ {cs : List Char} {c : Char} {i : Nat},
    indexOfCh cs c = some i → ∃ h : i < cs.length, cs.get ⟨i, h⟩ = c := by
  intro cs
  induction cs with
  | nil => intro c i h; simp [indexOfCh] at h
  | cons a t ih =>
    intro c i h
    rw [show indexOfCh (a :: t) c =
          if a = c then some 0 else (indexOfCh t c).map (· + 1) from by
        rw [indexOfCh]] at h
    split at h
    · rename_i ha
      have hi : i = 0 := by
        simpa using h.symm
      subst hi
      exact ⟨by simp, ha⟩
    · rw [Option.map_eq_some'] at h
      obtain ⟨i2, hi2, hplus⟩ := h
      obtain ⟨hlt, hget⟩ := ih hi2
      subst hplus
      exact ⟨by simpa using Nat.succ_lt_succ hlt, by simpa using hget⟩

theorem parseMembers_obj_shape : ∀ (fuel : Nat) (cs : List Char)
    (acc : List (String × Json)) (v : Json) (r : List Char),
    parseMembers fuel cs acc = some (v, r) → ∃ kvs, v = .obj kvs := by
  intro fuel
  induction fuel with
  | zero =>
    intro cs acc v r h
    exact absurd h (by rw [parseMembers]; simp)
  | succ f ihf =>
    intro cs acc v r h
    unfold parseMembers at h
    repeat' split at h
    all_goals first
      | exact ihf _ _ _ _ h
      | (simp only [Option.some.injEq, Prod.mk.injEq] at h
         exact ⟨_, h.1.symm⟩)
      | simp at h

theorem parseVal_brace_obj (fuel : Nat) (t : List Char) (v : Json) (r : List Char)
    (h : parseVal fuel ('{' :: t) = some (v, r)) : ∃ kvs, v = .obj kvs := by
  cases fuel with
  | zero => exact absurd h (by rw [parseVal]; simp)
  | succ f =>
    rw [parseVal_cons f '{' t (by decide), if_pos rfl] at h
    split at h
    · simp only [Option.some.injEq, Prod.mk.injEq] at h
      exact ⟨[], h.1.symm⟩
    · exact parseMembers_obj_shape f _ _ _ _ h

theorem jsonDecode_brace (t : List Char) :
    jsonDecode ('{' :: t) = none ∨
      ∃ kvs, jsonDecode ('{' :: t) = some (.obj kvs) := by
  unfold jsonDecode
  cases hp : parseVal (2 * ('{' :: t).length + 1) ('{' :: t) with
  | none => exact Or.inl rfl
  | some vr =>
    obtain ⟨v, r⟩ := vr
    obtain ⟨kvs, hkvs⟩ := parseVal_brace_obj _ _ _ _ hp
    subst hkvs
    simp only []
    by_cases hws : skipWs r = []
    · exact Or.inr ⟨kvs, by rw [if_pos hws]⟩
    · exact Or.inl (by rw [if_neg hws])

/-- C10: the response parser is total — for every input it returns either
a decoded JSON object or `None`: it returns `None` whenever the input has
no `{` or no `}` (in particular when the last `}` precedes the first `{`,
where the slice is empty), and whenever the decode of the slice fails;
when it returns a value, that value is an object. -/
theorem C10_parser_total (s : String) :
    (('{' ∉ s.data ∨ '}' ∉ s.data) → _parse_json_response s = none) ∧
    (∀ i j : Nat, indexOfCh (pyStripChars s.data) '{' = some i →
      lastIndexOfCh (pyStripChars s.data) '}' = some j → j < i →
      _parse_json_response s = none) ∧
    (_parse_json_response s = none ∨
      ∃ kvs, _parse_json_response s = some (.obj kvs)) := by
  refine ⟨?_, ?_, ?_⟩
  · intro hbr
    cases hi : indexOfCh (pyStripChars s.data) '{' with
    | none =>
      unfold _parse_json_response
      rw [hi]
    | some i =>
      cases hj : lastIndexOfCh (pyStripChars s.data) '}' with
      | none =>
        unfold _parse_json_response
        rw [hi, hj]
      | some j =>
        exfalso
        rcases hbr with hbr | hbr
        · exact hbr (mem_pyStripChars (indexOfCh_mem hi))
        · exact hbr (mem_pyStripChars (lastIndexOfCh_mem hj))
  · intro i j hi hj hij
    unfold _parse_json_response
    rw [hi, hj]
    simp only []
    rw [List.drop_eq_nil_of_le (by
      rw [List.length_take]
      exact le_trans (min_le_left _ _) (by omega))]
    rfl
  · cases hi : indexOfCh (pyStripChars s.data) '{' with
    | none =>
      left
      unfold _parse_json_response
      rw [hi]
    | some i =>
      cases hj : lastIndexOfCh (pyStripChars s.data) '}' with
      | none =>
        left
        unfold _parse_json_response
        rw [hi, hj]
      | some j =>
        unfold _parse_json_response
        rw [hi, hj]
        simp only []
        obtain ⟨hlt, hget⟩ := indexOfCh_get hi
        by_cases hle : ((pyStripChars s.data).take (j + 1)).length ≤ i
        · left
          rw [List.drop_eq_nil_of_le hle]
          rfl
        · have hlt2 : i < j + 1 := by
            rw [List.length_take] at hle
            omega
          have hne : ((pyStripChars s.data).take (j + 1)).drop i ≠ [] := by
            intro h0
            have hlen0 := congrArg List.length h0
            rw [List.length_drop] at hlen0
            simp at hlen0
            omega
          obtain ⟨d, t2, hdt⟩ := List.exists_cons_of_ne_nil hne
          have hd : d = '{' := by
            have h1 : (((pyStripChars s.data).take (j + 1)).drop i).head? = some d := by
              rw [hdt]
              rfl
            rw [List.head?_drop, List.getElem?_take, if_pos hlt2,
              List.getElem?_eq_getElem hlt] at h1
            have hd2 := Option.some.inj h1
            rw [List.get_eq_getElem] at hget
            exact hd2.symm.trans hget
          rw [hdt, hd]
          exact jsonDecode_brace t2

theorem C10_parser_total_witness :
    _parse_json_response "no braces in this response" = none ∧
    _parse_json_response "stray \x7d before \x7b here" = none ∧
    _parse_json_response "prose \x7b\"a\": [1, 2]\x7d prose" =
      some (.obj [("a", .arr [.num 1, .num 2])]) ∧
    _parse_json_response "\x7bnot valid json\x7d" = none := by
  refine ⟨(C10_parser_total "no braces in this response").1
    (Or.inl (by decide)), ?_, rfl, rfl⟩
  exact (C10_parser_total "stray \x7d before \x7b here").2.1 15 6 (by decide) (by decide)
    (by omega)

/-! ### Literature fallback, per-line reference parsing
(`RPDDataExtractor._extract_literature_fallback`, lines 494-522)

The per-line body strips the line, keeps it only if longer than 20
characters, matches the anchored Python regex
`(\d+\.?\s*)?([^\.]+)\.?\s*([^/]+)` with its leftmost-greedy backtracking
semantics, strips groups 2 and 3, splits group 2 on its first period if
one is present (`author_title.split('.', 1)`), and searches the line for
the first four-digit run as the year.  The regex is hand-compiled to its
backtracking search: greedy quantifier candidates are enumerated longest
first and the first complete success wins (`\d`/`\s` are modelled by
their ASCII classes).  -/

def runLen (p : Char → Bool) (cs : List Char) : Nat := (cs.takeWhile p).length

/-- Candidate lengths for a greedy `+` quantifier over class `p`, longest
first. -/
def plusChoices (p : Char → Bool) (cs : List Char) : List Nat :=
  (List.range (runLen p cs)).reverse.map (· + 1)

/-- Candidate lengths for a greedy `*` quantifier, longest first. -/
def starChoices (p : Char → Bool) (cs : List Char) : List Nat :=
  (List.range (runLen p cs + 1)).reverse

/-- Candidate lengths for a greedy `c?` quantifier: present, then absent. -/
def optChoices (c : Char) (cs : List Char) : List Nat :=
  match cs with
  | x :: _ => if x = c then [1, 0] else [0]
  | [] => [0]

def notDot (c : Char) : Bool := !(c = '.')

def notSlash (c : Char) : Bool := !(c = '/')

/-- Total consumed lengths for the optional group `(\d+\.?\s*)?`, in
backtracking preference order; the final `0` is the group-absent choice. -/
def group1Choices (cs : List Char) : List Nat :=
  ((plusChoices isDigitCh cs).flatMap fun d =>
    ((optChoices '.' (cs.drop d)).flatMap fun dot =>
      (starChoices isPyWs ((cs.drop d).drop dot)).map fun sp => d + dot + sp)) ++ [0]

/-- Try the tail `([^\.]+)\.?\s*([^/]+)` of the reference regex after
consuming `g1` characters; returns (group 2, group 3) on success. -/
def matchRefAt (cs : List Char) (g1 : Nat) : Option (List Char × List Char) :=
  (plusChoices notDot (cs.drop g1)).findSome? fun k =>
    (optChoices '.' ((cs.drop g1).drop k)).findSome? fun dot =>
      (starChoices isPyWs (((cs.drop g1).drop k).drop dot)).findSome? fun sp =>
        match ((((cs.drop g1).drop k).drop dot).drop sp) with
        | [] => none
        | c :: t =>
          if c = '/' then none
          else some (((cs.drop g1).takeWhile notDot).take k,
            (c :: t).takeWhile notSlash)

/-- `re.match(r'(\d+\.?\s*)?([^\.]+)\.?\s*([^/]+)', line)`. -/
def matchRef (cs : List Char) : Option (List Char × List Char) :=
  (group1Choices cs).findSome? fun g1 => matchRefAt cs g1

/-- `re.search(r'(\d{4})', line)`: the leftmost window of four digits. -/
def findYear : List Char → Option Int
  | c1 :: c2 :: c3 :: c4 :: rest =>
    if isDigitCh c1 && isDigitCh c2 && isDigitCh c3 && isDigitCh c4 then
      some ((charsToNat [c1, c2, c3, c4] : Nat) : Int)
    else findYear (c2 :: c3 :: c4 :: rest)
  | _ => none

def containsDot (cs : List Char) : Bool := cs.any fun c => c = '.'

/-- Python `author_title.split('.', 1)`: the part before the first period
and the part after it. -/
def splitFirstDot (cs : List Char) : List Char × List Char :=
  (cs.takeWhile notDot, (cs.dropWhile notDot).tail)

/-- One iteration of the literature fallback's line loop (lines 496-522):
returns the dict appended to `references` for this line, or `none` when
the line is skipped (too short, or no regex match). -/
def litLineRef (rawLine : List Char) : Option RefDict :=
  let line := pyStripChars rawLine
  if line.length ≤ 20 then none
  else
    match matchRef line with
    | none => none
    | some (g2, g3) =>
      let author_title := pyStripChars g2
      let rest := pyStripChars g3
      let ap :=
        if containsDot author_title then
          (pyStripChars (splitFirstDot author_title).1,
           pyStripChars (splitFirstDot author_title).2)
        else (author_title, rest)
      some { authors := some (String.mk ap.1), title := some (String.mk ap.2),
             year := findYear line }

/-- Group 2 of the reference regex is matched by `[^\.]+` and therefore
never contains a period. -/
theorem matchRef_g2_no_dot {cs g2 g3 : List Char}
    (h : matchRef cs = some (g2, g3)) : '.' ∉ g2 := by
  unfold matchRef at h
  obtain ⟨g1, _, h1⟩ := List.exists_of_findSome?_eq_some h
  unfold matchRefAt at h1
  obtain ⟨k, _, h2⟩ := List.exists_of_findSome?_eq_some h1
  obtain ⟨dot, _, h3⟩ := List.exists_of_findSome?_eq_some h2
  obtain ⟨sp, _, h4⟩ := List.exists_of_findSome?_eq_some h3
  split at h4
  · exact absurd h4 (by simp)
  · split at h4
    · exact absurd h4 (by simp)
    · simp only [Option.some.injEq, Prod.mk.injEq] at h4
      intro hmem
      rw [← h4.1] at hmem
      have hmem2 := List.take_subset k _ hmem
      have := List.mem_takeWhile_imp hmem2
      simp [notDot] at this

/-- C7: in the fallback literature extraction, for every kept line the
matched author/title segment (regex group 2) is period-free by
construction, so the claimed period-split branch never fires; the
authors become the stripped group 2 and the title becomes the stripped
group 3 (the text after the segment's optional period and whitespace,
up to the first slash), which in general differs from the empty string;
the year is the first four-digit run of the line.  (Amends the claim:
the original "otherwise the whole segment becomes authors and the title
is empty" is refuted by `C7_counterexample`, whose period-free kept line
yields the non-empty title "x".) -/
theorem C7_literature_line_split (rawLine : List Char) (r : RefDict)
    (h : litLineRef rawLine = some r) :
    ∃ g2 g3, matchRef (pyStripChars rawLine) = some (g2, g3) ∧
      ('.' ∉ g2) ∧
      r.authors = some (String.mk (pyStripChars g2)) ∧
      r.title = some (String.mk (pyStripChars g3)) ∧
      r.year = findYear (pyStripChars rawLine) := by
  simp only [litLineRef] at h
  split at h
  · exact absurd h (by simp)
  · split at h
    · exact absurd h (by simp)
    · rename_i g2 g3 hm
      have hnd : '.' ∉ g2 := matchRef_g2_no_dot hm
      have hcd : containsDot (pyStripChars g2) = false := by
        simp only [containsDot, List.any_eq_false, decide_eq_true_eq]
        intro c hc hcdot
        exact hnd (hcdot ▸ mem_pyStripChars hc)
      rw [hcd] at h
      simp only [Bool.false_eq_true, if_false, Option.some.injEq] at h
      exact ⟨g2, g3, hm, hnd, by rw [← h], by rw [← h], by rw [← h]⟩

/-- C7 counterexample: the line of twenty-one letters `a` followed by
`x` (22 characters, so kept) contains no period, yet the produced
reference has title `"x"` — group 3 of the regex — not the empty title
the claim asserts for period-free segments. -/
theorem C7_counterexample :
    litLineRef ("aaaaaaaaaaaaaaaaaaaaax".data) =
      some { authors := some "aaaaaaaaaaaaaaaaaaaaa", title := some "x",
             year := none } ∧
    some ("x" : String) ≠ some ("" : String) :=
  ⟨by decide, by decide⟩

def exLitLine : List Char :=
  "5. Smith J. Algorithms and Data Structures / OUP, 2019".data

def exLitRef : RefDict :=
  { authors := some "Smith J", title := some "Algorithms and Data Structures",
    year := some 2019 }

/-- Witness for `C7_literature_line_split` on a concrete literature
line. -/
theorem C7_literature_line_split_witness :
    ∃ g2 g3, matchRef (pyStripChars exLitLine) = some (g2, g3) ∧
      ('.' ∉ g2) ∧
      exLitRef.authors = some (String.mk (pyStripChars g2)) ∧
      exLitRef.title = some (String.mk (pyStripChars g3)) ∧
      exLitRef.year = findYear (pyStripChars exLitLine) :=
  C7_literature_line_split exLitLine exLitRef (by decide)
